import Mathlib

/-!
# Verification of the GemHub vector store (`services/vector_store/ingest.py`)

This file gives a shallow embedding of the `GemVectorStore` class and the
helper functions of `ingest.py`, and proves (or refutes) the specification
claims about it.

Modelling conventions:

* The SQLite table `gems` is a list of `GemRow` values in rowid order together
  with the `AUTOINCREMENT` counter; `INSERT OR REPLACE` with the `UNIQUE(name)`
  constraint deletes every conflicting row and appends a fresh row with a new
  rowid.
* The FAISS `IndexFlatIP` is a dimension together with the list of stored
  vectors in insertion order; `ntotal` is the length of that list.  Scores are
  integers standing in for IEEE floats (no proved claim depends on the
  scalar type, and integers evaluate inside the kernel).  `Index.search` returns exactly `k`
  `(score, label)` entries: the stored positions ordered by descending inner
  product (ties by insertion order), padded with label `-1` entries when the
  index holds fewer than `k` vectors, exactly as FAISS does.
* The sentence-transformer model is an external dependency; the composite
  "encode the text, then L2-normalize" (lines 137-138 and 213-214 of
  `ingest.py`) is modelled as an abstract function `embed : String → List ℤ`
  carried by the configuration.
* Python's `json.dumps` / `json.loads` (standard library) are modelled by an
  executable encoder with Python's `ensure_ascii` escaping rules and an
  executable parser for JSON arrays of strings (the only shape this module
  ever stores in the `keywords` column).
* `datetime.now().isoformat()` is modelled by an explicit `now` argument.
* File-system state (the persisted `faiss.index` file) is part of the store
  state as an `Option IndexFile`; a `corrupt` file makes `faiss.read_index`
  raise, which the embedding models as `Except.error`.
-/

/-! ## JSON codec for lists of strings (models Python `json.dumps`/`json.loads`) -/

/-- Lowercase hexadecimal digit, as produced by Python's `json` module. -/
def hexDigitChar (n : Nat) : Char :=
  if n < 10 then Char.ofNat (48 + n) else Char.ofNat (87 + n)

/-- The four hex digits of `n % 65536`, most significant first. -/
def toHex4 (n : Nat) : List Char :=
  [hexDigitChar (n / 4096 % 16), hexDigitChar (n / 256 % 16),
   hexDigitChar (n / 16 % 16), hexDigitChar (n % 16)]

/-- Escape one character the way `json.dumps` does with its default
`ensure_ascii=True`: the two-character escapes for quote, backslash and the
common control characters, `\uXXXX` for the remaining control characters and
all non-ASCII characters, and a UTF-16 surrogate pair for characters beyond
the basic multilingual plane. -/
def escapeChar (c : Char) : List Char :=
  if c = '"' then ['\\', '"']
  else if c = '\\' then ['\\', '\\']
  else if c = '\n' then ['\\', 'n']
  else if c = '\r' then ['\\', 'r']
  else if c = '\t' then ['\\', 't']
  else if c.toNat = 8 then ['\\', 'b']
  else if c.toNat = 12 then ['\\', 'f']
  else if c.toNat < 32 ∨ 127 ≤ c.toNat then
    if c.toNat < 65536 then '\\' :: 'u' :: toHex4 c.toNat
    else
      ('\\' :: 'u' :: toHex4 (55296 + (c.toNat - 65536) / 1024)) ++
      ('\\' :: 'u' :: toHex4 (56320 + (c.toNat - 65536) % 1024))
  else [c]

/-- Escape every character of a string body. -/
def escapeList : List Char → List Char
  | [] => []
  | c :: cs => escapeChar c ++ escapeList cs

/-- JSON encoding of one string: a quoted, escaped body. -/
def jsonEncodeString (s : String) : List Char :=
  '"' :: (escapeList s.data ++ ['"'])

/-- Join encoded items with `", "`, the default `json.dumps` item separator. -/
def commaJoin : List (List Char) → List Char
  | [] => []
  | [x] => x
  | x :: xs => x ++ ',' :: ' ' :: commaJoin xs

/-- `json.dumps` on a list of strings. -/
def jsonDumps (ks : List String) : String :=
  String.mk ('[' :: (commaJoin (ks.map jsonEncodeString) ++ [']']))

/-- Numeric value of a hexadecimal digit character, if it is one. -/
def parseHexDigit (c : Char) : Option Nat :=
  if 48 ≤ c.toNat ∧ c.toNat ≤ 57 then some (c.toNat - 48)
  else if 97 ≤ c.toNat ∧ c.toNat ≤ 102 then some (c.toNat - 87)
  else if 65 ≤ c.toNat ∧ c.toNat ≤ 70 then some (c.toNat - 55)
  else none

/-- Read exactly four hex digits. -/
def parseHex4 : List Char → Option (Nat × List Char)
  | a :: b :: c :: d :: rest =>
    match parseHexDigit a, parseHexDigit b, parseHexDigit c, parseHexDigit d with
    | some x, some y, some z, some w => some (4096 * x + 256 * y + 16 * z + w, rest)
    | _, _, _, _ => none
  | _ => none

/-- The single-character JSON escapes other than `\uXXXX`. -/
def decodeEscape (e : Char) : Option Char :=
  if e = '"' then some '"'
  else if e = '\\' then some '\\'
  else if e = '/' then some '/'
  else if e = 'n' then some '\n'
  else if e = 'r' then some '\r'
  else if e = 't' then some '\t'
  else if e = 'b' then some (Char.ofNat 8)
  else if e = 'f' then some (Char.ofNat 12)
  else none

/-- Decode one `\uXXXX` escape starting right after the `\u`; a high
surrogate must be followed by a second `\uXXXX` low surrogate, and the two
are recombined into one character, as `json.loads` does. -/
def parseUEscape (l : List Char) : Option (Char × List Char) :=
  match parseHex4 l with
  | none => none
  | some nr =>
    if 55296 ≤ nr.1 ∧ nr.1 < 56320 then
      match nr.2 with
      | '\\' :: 'u' :: rest3 =>
        match parseHex4 rest3 with
        | none => none
        | some mr =>
          if 56320 ≤ mr.1 ∧ mr.1 < 57344 then
            some (Char.ofNat (65536 + (nr.1 - 55296) * 1024 + (mr.1 - 56320)), mr.2)
          else none
      | _ => none
    else some (Char.ofNat nr.1, nr.2)

set_option maxRecDepth 4096 in

/-- Parse the body of a JSON string after the opening quote, up to and
including the closing quote; returns the decoded characters and the input
remaining after the closing quote.  The fuel argument only bounds the
recursion depth: every recursive step consumes at least one input
character, so a fuel of `input length + 1` can never run out. -/
def parseStringBodyAux : Nat → List Char → Option (List Char × List Char)
  | 0, _ => none
  | _ + 1, [] => none
  | fuel + 1, c :: rest =>
    if c = '"' then some ([], rest)
    else if c = '\\' then
      match rest with
      | [] => none
      | e :: rest1 =>
        if e = 'u' then
          match parseUEscape rest1 with
          | none => none
          | some cr =>
            match parseStringBodyAux fuel cr.2 with
            | some sr => some (cr.1 :: sr.1, sr.2)
            | none => none
        else
          match decodeEscape e with
          | none => none
          | some dch =>
            match parseStringBodyAux fuel rest1 with
            | some sr => some (dch :: sr.1, sr.2)
            | none => none
    else
      match parseStringBodyAux fuel rest with
      | some sr => some (c :: sr.1, sr.2)
      | none => none

/-- The JSON string-body parser, with enough fuel for its input. -/
def parseStringBody (l : List Char) : Option (List Char × List Char) :=
  parseStringBodyAux (l.length + 1) l


/-- JSON whitespace. -/
def jsonWs (c : Char) : Bool := c = ' ' ∨ c = '\t' ∨ c = '\n' ∨ c = '\r'

/-- Skip JSON whitespace. -/
def skipWs (l : List Char) : List Char := l.dropWhile jsonWs

/-- Parse a comma-separated sequence of JSON strings followed by the closing
`]` of the array; returns the items and the input remaining after the `]`.
The fuel argument only bounds the recursion depth: one unit is spent per item,
and since every item consumes at least two characters of input, a fuel of
`input length + 1` can never be exhausted. -/
def parseItemsAux : Nat → List Char → Option (List String × List Char)
  | 0, _ => none
  | _ + 1, [] => none
  | fuel + 1, c :: r =>
    if c = '"' then
      match parseStringBody r with
      | none => none
      | some sr =>
        match skipWs sr.2 with
        | [] => none
        | c2 :: r2 =>
          if c2 = ']' then some ([String.mk sr.1], r2)
          else if c2 = ',' then
            match parseItemsAux fuel (skipWs r2) with
            | some ir => some (String.mk sr.1 :: ir.1, ir.2)
            | none => none
          else none
    else none

/-- Parse the part of a JSON array after the opening `[`, requiring only
whitespace after the closing `]`. -/
def parseArrayTail (l : List Char) : Option (List String) :=
  match l with
  | [] => none
  | c :: r =>
    if c = ']' then (if skipWs r = [] then some [] else none)
    else
      match parseItemsAux ((c :: r).length + 1) (c :: r) with
      | some ir => if skipWs ir.2 = [] then some ir.1 else none
      | none => none

/-- `json.loads`, restricted to the JSON shape this module ever stores: an
array of strings.  Returns `none` where `json.loads` would raise
`JSONDecodeError`. -/
def jsonLoads (s : String) : Option (List String) :=
  match skipWs s.data with
  | [] => none
  | c :: rest => if c = '[' then parseArrayTail (skipWs rest) else none

/-! ## The store model (`GemVectorStore` of `ingest.py`) -/

/-- A gem-data dictionary as passed to `add_gem`; `none` models an absent
key, read with `gem_data.get(key, default)` in Python. -/
structure GemData where
  name : Option String := none
  description : Option String := none
  keywords : Option (List String) := none
  version : Option String := none
  homepage : Option String := none
  source_code_uri : Option String := none
  download_count : Option Int := none
  stars : Option Int := none
  last_updated : Option String := none
deriving DecidableEq

/-- One row of the SQLite `gems` table (schema of `_init_database`). -/
structure GemRow where
  id : Nat
  name : String
  description : String
  readme_content : String
  keywords : String
  version : String
  homepage : String
  source_code_uri : String
  download_count : Int
  stars : Int
  last_updated : String
  created_at : String
  embedding_vector_id : Int
deriving DecidableEq

/-- The SQLite metadata database: rows in rowid order plus the
`AUTOINCREMENT` counter. -/
structure MetadataDB where
  rows : List GemRow := []
  nextId : Nat := 1
deriving DecidableEq, Inhabited

/-- `INSERT OR REPLACE INTO gems ...`: under the `UNIQUE(name)` constraint,
`REPLACE` deletes every row with the same name and inserts a fresh row with
a new rowid; `cursor.lastrowid` is returned alongside the new database. -/
def MetadataDB.insertOrReplace (db : MetadataDB) (mkRow : Nat → GemRow) :
    MetadataDB × Nat :=
  let row := mkRow db.nextId
  ({ rows := db.rows.filter (fun r => r.name ≠ row.name) ++ [row],
     nextId := db.nextId + 1 }, db.nextId)

/-- `SELECT ... FROM gems WHERE embedding_vector_id = ?` followed by
`fetchone()`: the first matching row, if any. -/
def MetadataDB.get_by_position (db : MetadataDB) (pos : Int) : Option GemRow :=
  db.rows.find? (fun r => r.embedding_vector_id == pos)

/-- A FAISS `IndexFlatIP`: its dimension and the stored vectors in insertion
order; `ntotal` is the length of the vector list. -/
structure FaissIndex where
  d : Nat
  vecs : List (List ℤ)
deriving DecidableEq

/-- `index.add(v)`: appends; FAISS rejects a vector whose dimension differs
from the index's. -/
def FaissIndex.add (idx : FaissIndex) (v : List ℤ) : Except String FaissIndex :=
  if v.length = idx.d then Except.ok { idx with vecs := idx.vecs ++ [v] }
  else Except.error "faiss add: dimension mismatch"

/-- The persisted `faiss.index` file: either unreadable (`faiss.read_index`
raises) or a valid serialized index. -/
inductive IndexFile where
  | corrupt : IndexFile
  | valid : FaissIndex → IndexFile
deriving DecidableEq

/-- Inner product of two vectors (the `IndexFlatIP` similarity). -/
def innerProduct (a b : List ℤ) : ℤ := (List.zipWith (fun x y => x * y) a b).sum

/-- Insert a `(score, label)` hit into a list sorted by descending score; an
inserted hit goes in front of the first entry whose score is not larger, so
equal scores keep earlier labels first. -/
def insertHit (x : ℤ × Int) : List (ℤ × Int) → List (ℤ × Int)
  | [] => [x]
  | y :: ys => if y.1 ≤ x.1 then x :: y :: ys else y :: insertHit x ys

/-- Stable sort by descending score. -/
def sortHits : List (ℤ × Int) → List (ℤ × Int)
  | [] => []
  | x :: xs => insertHit x (sortHits xs)

/-- `index.search(q, k)`: the stored positions scored by inner product with
the query, ordered by descending score (ties broken by insertion order),
truncated to `k`, and padded with `(-1)`-labelled sentinel entries when the
index holds fewer than `k` vectors, as FAISS does. -/
def FaissIndex.search (idx : FaissIndex) (q : List ℤ) (k : Nat) :
    List (ℤ × Int) :=
  let scored := idx.vecs.enum.map (fun p => (innerProduct q p.2, (p.1 : Int)))
  let top := (sortHits scored).take k
  top ++ List.replicate (k - top.length) (0, -1)

/-- One entry of the list returned by `GemVectorStore.search`. -/
structure SearchResult where
  name : String
  description : String
  keywords : List String
  version : String
  homepage : String
  source_code_uri : String
  download_count : Int
  stars : Int
  last_updated : String
  similarity_score : ℤ
  rank : Nat
deriving DecidableEq

/-- The value stored in the `keywords` column:
`json.dumps(keywords) if keywords else "[]"`. -/
def storedKeywords (keywords : List String) : String :=
  if keywords.isEmpty then "[]" else jsonDumps keywords

/-- The keywords value read back by `search`:
`json.loads(row[2]) if row[2] else []`.  For column values written by
`add_gem` the parse always succeeds; on a malformed column `json.loads`
would raise, which this total model maps to `[]`. -/
def readKeywords (s : String) : List String :=
  if s.isEmpty then [] else (jsonLoads s).getD []

/-- Per-process configuration: the module-level `HAS_DEPENDENCIES` flag and
the external sentence-transformer model.  `embed` stands for the composite
"`model.encode([text])[0]` followed by L2 normalization" of lines 137-138
and 213-214 of `ingest.py`; `modelDim` is
`model.get_sentence_embedding_dimension()`. -/
structure Config where
  hasDeps : Bool
  embed : String → List ℤ
  modelDim : Nat
  embedding_model_name : String := "all-MiniLM-L6-v2"

/-- Mutable state of a `GemVectorStore` instance together with the on-disk
index file it reads and writes. -/
structure State where
  dimension : Nat := 384
  modelLoaded : Bool := false
  index : Option FaissIndex := none
  db : MetadataDB := {}
  diskIndex : Option IndexFile := none
deriving DecidableEq, Inhabited

namespace GemVectorStore

/-- `GemVectorStore.__init__` on a fresh store directory: empty metadata
database, no index loaded, no index file on disk, default dimension 384. -/
def initState : State := {}

/-- `load_embedding_model`: raises when the dependencies are missing;
otherwise loads the model on first use and takes the dimension from it. -/
def load_embedding_model (cfg : Config) (s : State) : Except String State :=
  if !cfg.hasDeps then Except.error "Required dependencies not installed"
  else if !s.modelLoaded then
    Except.ok { s with modelLoaded := true, dimension := cfg.modelDim }
  else Except.ok s

/-- `load_or_create_index`: keeps an already-loaded index; otherwise reads
the index file when one exists (`faiss.read_index` — a read failure
propagates to the caller, and there is no check of the loaded index's
dimension against `self.dimension`), or else creates a fresh empty
`IndexFlatIP(self.dimension)`. -/
def load_or_create_index (s : State) : Except String State :=
  match s.index with
  | some _ => Except.ok s
  | none =>
    match s.diskIndex with
    | some IndexFile.corrupt => Except.error "faiss read_index failed"
    | some (IndexFile.valid idx) => Except.ok { s with index := some idx }
    | none => Except.ok { s with index := some ⟨s.dimension, []⟩ }

/-- `_create_embedding_text`: the `Gem:`, `Description:`, `Keywords:` and
`Documentation:` sections in fixed order, joined by newlines; sections with
an empty source field are omitted and the readme is truncated to 2000
characters. -/
def _create_embedding_text (name description readme : String)
    (keywords : List String) : String :=
  let parts1 : List String := if name ≠ "" then ["Gem: " ++ name] else []
  let parts2 : List String := parts1 ++
    (if description ≠ "" then ["Description: " ++ description] else [])
  let parts3 : List String := parts2 ++
    (if !keywords.isEmpty then ["Keywords: " ++ String.intercalate ", " keywords] else [])
  let readme_truncated : String :=
    if readme.length > 2000 then String.mk (readme.data.take 2000) else readme
  let parts4 : List String := parts3 ++
    (if readme ≠ "" then ["Documentation: " ++ readme_truncated] else [])
  String.intercalate "\n" parts4

/-- `add_gem`: return the sentinel `-1` without touching anything when the
dependencies are missing; otherwise load the model and the index, build the
embedding text, embed it (encode + normalize), record the position
`vector_id = index.ntotal`, append the vector, and `INSERT OR REPLACE` the
metadata row with that position; returns `cursor.lastrowid`. -/
def add_gem (cfg : Config) (s : State) (gem_data : GemData)
    (readme_content : String) (now : String) : Except String (State × Int) :=
  if !cfg.hasDeps then Except.ok (s, -1)
  else do
    let s ← load_embedding_model cfg s
    let s ← load_or_create_index s
    let name := gem_data.name.getD ""
    let description := gem_data.description.getD ""
    let keywords := gem_data.keywords.getD []
    let embedding_text := _create_embedding_text name description readme_content keywords
    let embedding := cfg.embed embedding_text
    match s.index with
    | none => Except.error "index not loaded"
    | some idx =>
      let vector_id : Int := idx.vecs.length
      let idx2 ← idx.add embedding
      let dbres := s.db.insertOrReplace (fun rid =>
        { id := rid,
          name := name,
          description := description,
          readme_content := readme_content,
          keywords := storedKeywords keywords,
          version := gem_data.version.getD "",
          homepage := gem_data.homepage.getD "",
          source_code_uri := gem_data.source_code_uri.getD "",
          download_count := gem_data.download_count.getD 0,
          stars := gem_data.stars.getD 0,
          last_updated := gem_data.last_updated.getD now,
          created_at := now,
          embedding_vector_id := vector_id })
      Except.ok ({ s with index := some idx2, db := dbres.1 }, dbres.2)

/-- The result-assembly loop of `search`
(`for i, (score, idx) in enumerate(zip(scores[0], indices[0]))`): `i` counts
every raw hit, sentinel hits (`idx == -1`) are skipped with `continue`, hits
whose position resolves to no metadata row are skipped, and each emitted
result carries `rank = i + 1`. -/
def assembleResults (db : MetadataDB) : List (ℤ × Int) → Nat → List SearchResult
  | [], _ => []
  | (score, pos) :: rest, i =>
    if pos == -1 then assembleResults db rest (i + 1)
    else
      match db.get_by_position pos with
      | some row =>
        { name := row.name,
          description := row.description,
          keywords := readKeywords row.keywords,
          version := row.version,
          homepage := row.homepage,
          source_code_uri := row.source_code_uri,
          download_count := row.download_count,
          stars := row.stars,
          last_updated := row.last_updated,
          similarity_score := score,
          rank := i + 1 } :: assembleResults db rest (i + 1)
      | none => assembleResults db rest (i + 1)

/-- `search`: empty list without dependencies or with a missing or empty
index; otherwise embed the query (encode + normalize), query FAISS for the
top `k` hits and assemble the results.  (`load_embedding_model` is also
called lazily here; it does not affect the returned list.) -/
def search (cfg : Config) (s : State) (query : String) (k : Nat) :
    List SearchResult :=
  if !cfg.hasDeps then []
  else
    match s.index with
    | none => []
    | some idx =>
      if idx.vecs.length = 0 then []
      else
        let query_embedding := cfg.embed query
        let hits := idx.search query_embedding k
        assembleResults s.db hits 0

/-- The dictionary returned by `get_stats` (without the filesystem
`store_path` entry). -/
structure Stats where
  total_gems : Nat
  index_size : Nat
  dimension : Nat
  model : String
deriving DecidableEq

/-- `get_stats`: `SELECT COUNT(*) FROM gems`, the loaded index's `ntotal`
(or 0), the current dimension and the model name. -/
def get_stats (cfg : Config) (s : State) : Stats :=
  { total_gems := s.db.rows.length,
    index_size := match s.index with | some idx => idx.vecs.length | none => 0,
    dimension := s.dimension,
    model := cfg.embedding_model_name }

/-- `save_index`: serializes the in-memory index over the index file. -/
def save_index (s : State) : State :=
  match s.index with
  | some idx => { s with diskIndex := some (IndexFile.valid idx) }
  | none => s

end GemVectorStore

/-- The rows that the assembly loop of `search` resolves: one per
non-sentinel hit whose position has a metadata row. -/
def foundRows (db : MetadataDB) (hits : List (ℤ × Int)) : List GemRow :=
  hits.filterMap (fun h => if h.2 == -1 then none else db.get_by_position h.2)

/-! ## Spec-side definition and concrete scenarios used by the claims -/

/-- The embedding text as §4.4 step 2 of the spec words it: the four
sections in fixed order, a section omitted when its source field is empty,
the keywords comma-joined, the readme truncated to at most 2000
characters. -/
def specEmbeddingText (name description readme : String)
    (keywords : List String) : String :=
  String.intercalate "\n"
    ((if name = "" then [] else ["Gem: " ++ name]) ++
     (if description = "" then [] else ["Description: " ++ description]) ++
     (if keywords = [] then [] else ["Keywords: " ++ String.intercalate ", " keywords]) ++
     (if readme = "" then [] else ["Documentation: " ++ String.mk (readme.data.take 2000)]))

/-- A two-dimensional store configuration whose model maps the embedding
texts of the two `add_gem` calls below, and the query `"q"`, to fixed unit
axes: the first add's text and the query to `[1, 0]`, the second add's text
to `[0, 1]`. -/
def c4Cfg : Config :=
  { hasDeps := true,
    embed := fun t =>
      if t = "Gem: a\nDescription: x" then [1, 0]
      else if t = "Gem: a\nDescription: y" then [0, 1]
      else if t = "q" then [1, 0]
      else [0, 0],
    modelDim := 2 }

/-- State after adding gem `a` (description `x`) to a fresh store. -/
def c4S1 : State :=
  match GemVectorStore.add_gem c4Cfg GemVectorStore.initState
      { name := some "a", description := some "x" } "" "t1" with
  | Except.ok p => p.1
  | Except.error _ => GemVectorStore.initState

/-- State after re-adding gem `a` (description `y`): the replace orphans
vector position 0, whose row was deleted by `INSERT OR REPLACE`. -/
def c4S2 : State :=
  match GemVectorStore.add_gem c4Cfg c4S1
      { name := some "a", description := some "y" } "" "t2" with
  | Except.ok p => p.1
  | Except.error _ => c4S1

/-- Configuration with a constant embedding, for the append-only scenario. -/
def c1Cfg : Config :=
  { hasDeps := true, embed := fun _ => [1, 0], modelDim := 2 }

/-- A store with an empty two-dimensional index already loaded. -/
def c1S0 : State :=
  { dimension := 2, index := some ⟨2, []⟩ }

/-- State after adding gem `a` to `c1S0`. -/
def c1S1 : State :=
  match GemVectorStore.add_gem c1Cfg c1S0 { name := some "a" } "" "t1" with
  | Except.ok p => p.1
  | Except.error _ => c1S0

/-- State after adding gem `b` to `c1S1`. -/
def c1S2 : State :=
  match GemVectorStore.add_gem c1Cfg c1S1 { name := some "b" } "" "t2" with
  | Except.ok p => p.1
  | Except.error _ => c1S1

/-- A configuration with the dependencies missing (`HAS_DEPENDENCIES = False`). -/
def c2Cfg : Config :=
  { hasDeps := false, embed := fun _ => [], modelDim := 0 }

/-- A configuration for exercising `add_gem` on a record with no name. -/
def c3Cfg : Config :=
  { hasDeps := true, embed := fun _ => [0, 0], modelDim := 2 }

/-- A store with no loaded index and a valid persisted index file of
dimension 5, while the configured dimension is the default 384. -/
def c5MismatchState : State :=
  { index := none, diskIndex := some (IndexFile.valid ⟨5, []⟩) }

/-- A store with no loaded index and an unreadable persisted index file. -/
def c5CorruptState : State :=
  { index := none, diskIndex := some IndexFile.corrupt }

/-- Configuration for the replace-semantics scenario. -/
def c6Cfg : Config :=
  { hasDeps := true, embed := fun _ => [0, 1], modelDim := 2 }

/-- The pre-existing row named `a` at vector position 0. -/
def c6Row0 : GemRow :=
  { id := 1, name := "a", description := "old", readme_content := "",
    keywords := "[]", version := "0.1", homepage := "", source_code_uri := "",
    download_count := 0, stars := 0, last_updated := "t0", created_at := "t0",
    embedding_vector_id := 0 }

/-- A store already holding gem `a` at vector position 0. -/
def c6S0 : State :=
  { dimension := 2, index := some ⟨2, [[1, 0]]⟩,
    db := { rows := [c6Row0], nextId := 2 } }

/-- The gem data that re-adds `a` with new metadata. -/
def c6Gem : GemData :=
  { name := some "a", description := some "new", keywords := some ["k1"],
    version := some "0.2" }

/-- State after re-adding gem `a` to `c6S0`. -/
def c6S1 : State :=
  match GemVectorStore.add_gem c6Cfg c6S0 c6Gem "" "t1" with
  | Except.ok p => p.1
  | Except.error _ => c6S0

/-- Configuration for the keywords round-trip scenario. -/
def c10Cfg : Config :=
  { hasDeps := true, embed := fun _ => [1, 1], modelDim := 2 }

/-- A store with an empty two-dimensional index already loaded. -/
def c10S0 : State :=
  { dimension := 2, index := some ⟨2, []⟩ }

/-- State after adding gem `a` with keywords `["ruby", "json"]`. -/
def c10WS : State :=
  match GemVectorStore.add_gem c10Cfg c10S0
      { name := some "a", keywords := some ["ruby", "json"] } "" "t1" with
  | Except.ok p => p.1
  | Except.error _ => c10S0

theorem parseHex4_length {l : List Char} {nr : Nat × List Char}
    (h : parseHex4 l = some nr) : nr.2.length + 4 = l.length := by
  match l with
  | [] => simp [parseHex4] at h
  | [_] => simp [parseHex4] at h
  | [_, _] => simp [parseHex4] at h
  | [_, _, _] => simp [parseHex4] at h
  | a :: b :: c :: d :: rest =>
    simp only [parseHex4] at h
    split at h
    · cases h
      simp
    · cases h
theorem parseUEscape_length {l : List Char} {cr : Char × List Char}
    (h : parseUEscape l = some cr) : cr.2.length + 4 ≤ l.length := by
  unfold parseUEscape at h
  split at h
  · cases h
  case _ nr heq =>
    have h1 := parseHex4_length heq
    split at h
    · split at h
      case _ rest3 heq2 =>
        split at h
        · cases h
        case _ mr heq3 =>
          have h3 := parseHex4_length heq3
          split at h
          · injection h with h4
            subst h4
            simp only [heq2, List.length_cons] at h1
            show mr.2.length + 4 ≤ l.length
            omega
          · cases h
      · cases h
    · injection h with h4
      subst h4
      show nr.2.length + 4 ≤ l.length
      omega

theorem parseStringBodyAux_nil {f : Nat} (hf : 0 < f) :
    parseStringBodyAux f ([] : List Char) = none := by
  cases f with
  | zero => omega
  | succ f => rfl

theorem parseStringBodyAux_irrel :
    ∀ (f1 f2 : Nat) (l : List Char), l.length < f1 → l.length < f2 →
      parseStringBodyAux f1 l = parseStringBodyAux f2 l := by
  intro f1
  induction f1 with
  | zero =>
    intro f2 l h1 _
    omega
  | succ f1 ih =>
    intro f2 l h1 h2
    cases f2 with
    | zero => omega
    | succ f2 =>
      cases l with
      | nil => rfl
      | cons c rest =>
        simp only [List.length_cons] at h1 h2
        by_cases hq : c = '"'
        · simp [parseStringBodyAux, hq]
        by_cases hb : c = '\\'
        · cases rest with
          | nil => simp [parseStringBodyAux, hq, hb]
          | cons e rest1 =>
            simp only [List.length_cons] at h1 h2
            by_cases hu : e = 'u'
            · cases hpe : parseUEscape rest1 with
              | none => simp [parseStringBodyAux, hq, hb, hu, hpe]
              | some cr =>
                have hlen := parseUEscape_length hpe
                have e1 : parseStringBodyAux f1 cr.2 = parseStringBodyAux f2 cr.2 :=
                  ih f2 cr.2 (by omega) (by omega)
                simp [parseStringBodyAux, hq, hb, hu, hpe, e1]
            · cases hd : decodeEscape e with
              | none => simp [parseStringBodyAux, hq, hb, hu, hd]
              | some dch =>
                have e1 : parseStringBodyAux f1 rest1 = parseStringBodyAux f2 rest1 :=
                  ih f2 rest1 (by omega) (by omega)
                simp [parseStringBodyAux, hq, hb, hu, hd, e1]
        · have e1 : parseStringBodyAux f1 rest = parseStringBodyAux f2 rest :=
            ih f2 rest (by omega) (by omega)
          simp [parseStringBodyAux, hq, hb, e1]

theorem parseHexDigit_hexDigitChar {d : Nat} (h : d < 16) :
    parseHexDigit (hexDigitChar d) = some d := by
  interval_cases d <;> decide

theorem parseHex4_toHex4 {n : Nat} (h : n < 65536) (rest : List Char) :
    parseHex4 (toHex4 n ++ rest) = some (n, rest) := by
  have h1 : n / 4096 % 16 < 16 := Nat.mod_lt _ (by norm_num)
  have h2 : n / 256 % 16 < 16 := Nat.mod_lt _ (by norm_num)
  have h3 : n / 16 % 16 < 16 := Nat.mod_lt _ (by norm_num)
  have h4 : n % 16 < 16 := Nat.mod_lt _ (by norm_num)
  simp only [toHex4, List.cons_append, List.nil_append, parseHex4,
    parseHexDigit_hexDigitChar h1, parseHexDigit_hexDigitChar h2,
    parseHexDigit_hexDigitChar h3, parseHexDigit_hexDigitChar h4]
  have he : 4096 * (n / 4096 % 16) + 256 * (n / 256 % 16) + 16 * (n / 16 % 16) + n % 16 = n := by
    omega
  rw [he]

theorem char_toNat_valid (c : Char) :
    c.toNat < 55296 ∨ (57343 < c.toNat ∧ c.toNat < 1114112) := by
  have h := c.valid
  unfold UInt32.isValidChar Nat.isValidChar at h
  rcases h with h | h
  · left
    exact h
  · right
    exact h

theorem parseStringBody_cons_quote (r : List Char) :
    parseStringBody ('"' :: r) = some ([], r) := rfl

theorem parseStringBody_cons_plain {c : Char} {r cs rest : List Char}
    (h1 : ¬c = '"') (h2 : ¬c = '\\') (hr : parseStringBody r = some (cs, rest)) :
    parseStringBody (c :: r) = some (c :: cs, rest) := by
  unfold parseStringBody
  rw [show (c :: r).length + 1 = r.length + 1 + 1 from by simp]
  simp only [parseStringBodyAux, h1, h2, if_false, ite_false]
  rw [show parseStringBodyAux (r.length + 1) r = parseStringBody r from rfl, hr]

theorem parseStringBody_cons_escape {e dch : Char} {r cs rest : List Char}
    (he : ¬e = 'u') (hd : decodeEscape e = some dch)
    (hr : parseStringBody r = some (cs, rest)) :
    parseStringBody ('\\' :: e :: r) = some (dch :: cs, rest) := by
  unfold parseStringBody
  rw [show ('\\' :: e :: r).length + 1 = r.length + 2 + 1 from by simp]
  simp only [parseStringBodyAux, he, hd, if_false, ite_false]
  rw [parseStringBodyAux_irrel (r.length + 2) (r.length + 1) r (by omega) (by omega)]
  rw [show parseStringBodyAux (r.length + 1) r = parseStringBody r from rfl, hr]
  simp

theorem parseStringBody_cons_u {ch : Char} {r rem cs rest : List Char}
    (h : parseUEscape r = some (ch, rem))
    (hr : parseStringBody rem = some (cs, rest)) :
    parseStringBody ('\\' :: 'u' :: r) = some (ch :: cs, rest) := by
  unfold parseStringBody
  rw [show ('\\' :: 'u' :: r).length + 1 = r.length + 2 + 1 from by simp]
  have hlen : rem.length + 4 ≤ r.length := parseUEscape_length h
  simp only [parseStringBodyAux, h, if_false, ite_false]
  rw [parseStringBodyAux_irrel (r.length + 2) (rem.length + 1) rem (by omega) (by omega)]
  rw [show parseStringBodyAux (rem.length + 1) rem = parseStringBody rem from rfl, hr]
  simp

theorem parseUEscape_bmp {n : Nat} (h9 : n < 65536)
    (hs : ¬(55296 ≤ n ∧ n < 56320)) (T : List Char) :
    parseUEscape (toHex4 n ++ T) = some (Char.ofNat n, T) := by
  unfold parseUEscape
  simp [parseHex4_toHex4 h9, hs]

theorem parseUEscape_pair (hi lo : Nat) (hhi : hi < 65536)
    (hhi2 : 55296 ≤ hi ∧ hi < 56320) (hlo : lo < 65536)
    (hlo2 : 56320 ≤ lo ∧ lo < 57344) (T : List Char) :
    parseUEscape (toHex4 hi ++ ('\\' :: 'u' :: (toHex4 lo ++ T))) =
      some (Char.ofNat (65536 + (hi - 55296) * 1024 + (lo - 56320)), T) := by
  unfold parseUEscape
  rw [parseHex4_toHex4 hhi]
  simp only [if_pos hhi2]
  rw [parseHex4_toHex4 hlo]
  simp only [if_pos hlo2]

theorem parseUEscape_astral (c : Char) (hbig : 65536 ≤ c.toNat) (T : List Char) :
    parseUEscape (toHex4 (55296 + (c.toNat - 65536) / 1024) ++
      ('\\' :: 'u' :: (toHex4 (56320 + (c.toNat - 65536) % 1024) ++ T))) = some (c, T) := by
  have hval := char_toNat_valid c
  have hm : c.toNat < 1114112 := by omega
  have hc : 65536 + (55296 + (c.toNat - 65536) / 1024 - 55296) * 1024 +
      (56320 + (c.toNat - 65536) % 1024 - 56320) = c.toNat := by omega
  have hp := parseUEscape_pair (55296 + (c.toNat - 65536) / 1024)
    (56320 + (c.toNat - 65536) % 1024) (by omega) (by constructor <;> omega)
    (by omega) (by constructor <;> omega) T
  rw [hc, Char.ofNat_toNat] at hp
  exact hp

theorem parseStringBody_escapeChar (c : Char) {T cs rest : List Char}
    (hT : parseStringBody T = some (cs, rest)) :
    parseStringBody (escapeChar c ++ T) = some (c :: cs, rest) := by
  have hval := char_toNat_valid c
  by_cases h1 : c = '"'
  · subst h1
    have hesc : escapeChar '"' = ['\\', '"'] := by decide
    rw [hesc]
    exact parseStringBody_cons_escape (by decide) (by decide) hT
  by_cases h2 : c = '\\'
  · subst h2
    have hesc : escapeChar '\\' = ['\\', '\\'] := by decide
    rw [hesc]
    exact parseStringBody_cons_escape (by decide) (by decide) hT
  by_cases h3 : c = '\n'
  · subst h3
    have hesc : escapeChar '\n' = ['\\', 'n'] := by decide
    rw [hesc]
    exact parseStringBody_cons_escape (by decide) (by decide) hT
  by_cases h4 : c = '\r'
  · subst h4
    have hesc : escapeChar '\r' = ['\\', 'r'] := by decide
    rw [hesc]
    exact parseStringBody_cons_escape (by decide) (by decide) hT
  by_cases h5 : c = '\t'
  · subst h5
    have hesc : escapeChar '\t' = ['\\', 't'] := by decide
    rw [hesc]
    exact parseStringBody_cons_escape (by decide) (by decide) hT
  by_cases h6 : c.toNat = 8
  · have hesc : escapeChar c = ['\\', 'b'] := by
      simp [escapeChar, h1, h2, h3, h4, h5, h6]
    have hb : decodeEscape 'b' = some c := by
      have h8c : Char.ofNat 8 = c := by
        rw [← h6, Char.ofNat_toNat]
      have hd : decodeEscape 'b' = some (Char.ofNat 8) := by decide
      rw [hd, h8c]
    rw [hesc]
    exact parseStringBody_cons_escape (by decide) hb hT
  by_cases h7 : c.toNat = 12
  · have hesc : escapeChar c = ['\\', 'f'] := by
      simp [escapeChar, h1, h2, h3, h4, h5, h6, h7]
    have hb : decodeEscape 'f' = some c := by
      have h12c : Char.ofNat 12 = c := by
        rw [← h7, Char.ofNat_toNat]
      have hd : decodeEscape 'f' = some (Char.ofNat 12) := by decide
      rw [hd, h12c]
    rw [hesc]
    exact parseStringBody_cons_escape (by decide) hb hT
  by_cases h8 : c.toNat < 32 ∨ 127 ≤ c.toNat
  · by_cases h9 : c.toNat < 65536
    · have hs : ¬(55296 ≤ c.toNat ∧ c.toNat < 56320) := by
        rcases hval with hv | hv
        · omega
        · omega
      have hesc : escapeChar c = '\\' :: 'u' :: toHex4 c.toNat := by
        simp [escapeChar, h1, h2, h3, h4, h5, h6, h7, h8, h9]
      rw [hesc]
      have hu := parseUEscape_bmp h9 hs T
      rw [Char.ofNat_toNat] at hu
      exact parseStringBody_cons_u (by simpa using hu) hT
    · have hbig : 65536 ≤ c.toNat := by omega
      have hesc : escapeChar c =
          ('\\' :: 'u' :: toHex4 (55296 + (c.toNat - 65536) / 1024)) ++
          ('\\' :: 'u' :: toHex4 (56320 + (c.toNat - 65536) % 1024)) := by
        simp [escapeChar, h1, h2, h3, h4, h5, h6, h7, h8, h9]
      rw [hesc]
      have hu := parseUEscape_astral c hbig T
      have hls : (('\\' :: 'u' :: toHex4 (55296 + (c.toNat - 65536) / 1024)) ++
          ('\\' :: 'u' :: toHex4 (56320 + (c.toNat - 65536) % 1024))) ++ T =
          '\\' :: 'u' :: (toHex4 (55296 + (c.toNat - 65536) / 1024) ++
            ('\\' :: 'u' :: (toHex4 (56320 + (c.toNat - 65536) % 1024) ++ T))) := by
        simp
      rw [hls]
      exact parseStringBody_cons_u hu hT
  · have h32 : 32 ≤ c.toNat ∧ c.toNat < 127 := by
      push_neg at h8
      exact ⟨h8.1, h8.2⟩
    have hesc : escapeChar c = [c] := by
      simp [escapeChar, h1, h2, h3, h4, h5, h6, h7, h8]
    rw [hesc]
    exact parseStringBody_cons_plain h1 h2 hT

theorem parseStringBody_escapeList (s rest : List Char) :
    parseStringBody (escapeList s ++ '"' :: rest) = some (s, rest) := by
  induction s generalizing rest with
  | nil =>
    rw [escapeList, List.nil_append]
    exact parseStringBody_cons_quote rest
  | cons c cs ih =>
    rw [escapeList, List.append_assoc]
    exact parseStringBody_escapeChar c (ih rest)

theorem skipWs_cons_not_ws (c : Char) (l : List Char) (h : jsonWs c = false) :
    skipWs (c :: l) = c :: l := by
  simp [skipWs, List.dropWhile_cons, h]

theorem jsonEncodeString_append (k : String) (t : List Char) :
    jsonEncodeString k ++ t = '"' :: (escapeList k.data ++ '"' :: t) := by
  simp [jsonEncodeString]

theorem commaJoin_cons_of_ne (x : List Char) {xs : List (List Char)} (h : xs ≠ []) :
    commaJoin (x :: xs) = x ++ ',' :: ' ' :: commaJoin xs := by
  cases xs with
  | nil => exact absurd rfl h
  | cons y ys => rfl

theorem commaJoin_enc_cons (k : String) (ks : List String) (t : List Char) :
    ∃ u, commaJoin ((k :: ks).map jsonEncodeString) ++ t = '"' :: u := by
  cases ks with
  | nil =>
    refine ⟨escapeList k.data ++ '"' :: t, ?_⟩
    rw [List.map, List.map, show commaJoin [jsonEncodeString k] = jsonEncodeString k from rfl,
      jsonEncodeString_append]
  | cons k2 ks2 =>
    refine ⟨escapeList k.data ++ '"' ::
      (',' :: ' ' :: (commaJoin ((k2 :: ks2).map jsonEncodeString) ++ t)), ?_⟩
    rw [List.map, commaJoin_cons_of_ne _ (by simp), List.append_assoc, List.cons_append,
      List.cons_append, jsonEncodeString_append]

theorem parseItemsAux_commaJoin (ks : List String) (k : String) (fuel : Nat)
    (hf : ks.length < fuel) :
    parseItemsAux fuel (commaJoin ((k :: ks).map jsonEncodeString) ++ [']']) =
      some (k :: ks, []) := by
  induction ks generalizing k fuel with
  | nil =>
    cases fuel with
    | zero => omega
    | succ fuel =>
      rw [List.map, List.map, show commaJoin [jsonEncodeString k] = jsonEncodeString k from rfl,
        jsonEncodeString_append]
      simp only [parseItemsAux, if_pos]
      rw [parseStringBody_escapeList]
      simp [skipWs, List.dropWhile_cons, jsonWs]
  | cons k2 ks ih =>
    cases fuel with
    | zero => omega
    | succ fuel =>
      have hf2 : ks.length < fuel := by
        simp only [List.length_cons] at hf
        omega
      obtain ⟨u, hu⟩ := commaJoin_enc_cons k2 ks [']']
      have ihk := ih k2 fuel hf2
      rw [hu] at ihk
      rw [List.map, commaJoin_cons_of_ne _ (by simp), List.append_assoc, List.cons_append,
        List.cons_append, jsonEncodeString_append]
      simp only [parseItemsAux, if_pos]
      rw [parseStringBody_escapeList, hu]
      simp [skipWs, List.dropWhile_cons, jsonWs, ihk]

theorem length_le_commaJoin_enc (ks : List String) :
    ks.length ≤ (commaJoin (ks.map jsonEncodeString)).length := by
  induction ks with
  | nil => simp [commaJoin]
  | cons k ks ih =>
    cases ks with
    | nil =>
      simp [commaJoin, jsonEncodeString]
    | cons k2 ks2 =>
      rw [List.map, commaJoin_cons_of_ne _ (by simp)]
      simp only [List.length_cons] at ih ⊢
      simp only [List.length_append, List.length_cons]
      omega

theorem jsonLoads_jsonDumps (ks : List String) : jsonLoads (jsonDumps ks) = some ks := by
  cases ks with
  | nil => decide
  | cons k ks =>
    obtain ⟨u, hu⟩ := commaJoin_enc_cons k ks [']']
    have h2 := congrArg List.length hu
    simp only [List.length_append, List.length_cons, List.length_nil] at h2
    have h1 := length_le_commaJoin_enc (k :: ks)
    simp only [List.length_cons] at h1
    have hlen : ks.length < ('"' :: u).length + 1 := by
      simp only [List.length_cons]
      omega
    have hitems := parseItemsAux_commaJoin ks k (('"' :: u).length + 1) hlen
    rw [hu] at hitems
    show parseArrayTail (skipWs (commaJoin ((k :: ks).map jsonEncodeString) ++ [']'])) =
      some (k :: ks)
    rw [hu, skipWs_cons_not_ws '"' u (by decide)]
    show (match parseItemsAux (('"' :: u).length + 1) ('"' :: u) with
          | some ir => if skipWs ir.2 = [] then some ir.1 else none
          | none => none) = some (k :: ks)
    rw [hitems]
    rfl
/-! ## Helper lemmas about the model -/

theorem exceptOkBind {ε α β : Type} (a : α) (f : α → Except ε β) :
    (Except.ok a >>= f : Except ε β) = f a := rfl

theorem exceptErrorBind {ε α β : Type} (e : ε) (f : α → Except ε β) :
    (Except.error e >>= f : Except ε β) = Except.error e := rfl

open GemVectorStore in
theorem add_gem_eq_of_dim {cfg : Config} {s : State} {gem : GemData}
    {readme now : String} {idx : FaissIndex}
    (hdeps : cfg.hasDeps = true) (hidx : s.index = some idx)
    (hdim : (cfg.embed (_create_embedding_text (gem.name.getD "")
      (gem.description.getD "") readme (gem.keywords.getD []))).length = idx.d) :
    add_gem cfg s gem readme now = Except.ok
      ({ s with modelLoaded := true,
                dimension := if s.modelLoaded then s.dimension else cfg.modelDim,
                index := some ⟨idx.d, idx.vecs ++
                  [cfg.embed (_create_embedding_text (gem.name.getD "")
                    (gem.description.getD "") readme (gem.keywords.getD []))]⟩,
                db := { rows := s.db.rows.filter
                          (fun r => r.name ≠ gem.name.getD "") ++
                          [{ id := s.db.nextId,
                             name := gem.name.getD "",
                             description := gem.description.getD "",
                             readme_content := readme,
                             keywords := storedKeywords (gem.keywords.getD []),
                             version := gem.version.getD "",
                             homepage := gem.homepage.getD "",
                             source_code_uri := gem.source_code_uri.getD "",
                             download_count := gem.download_count.getD 0,
                             stars := gem.stars.getD 0,
                             last_updated := gem.last_updated.getD now,
                             created_at := now,
                             embedding_vector_id := (idx.vecs.length : Int) }],
                        nextId := s.db.nextId + 1 } },
       (s.db.nextId : Int)) := by
  unfold add_gem load_embedding_model load_or_create_index FaissIndex.add
    MetadataDB.insertOrReplace
  rw [hdeps]
  cases hm : s.modelLoaded with
  | false =>
    simp [hidx, hdim, hm, exceptOkBind]
  | true =>
    simp [hidx, hdim, hm, exceptOkBind]

open GemVectorStore in
theorem add_gem_eq_of_not_dim {cfg : Config} {s : State} {gem : GemData}
    {readme now : String} {idx : FaissIndex}
    (hdeps : cfg.hasDeps = true) (hidx : s.index = some idx)
    (hndim : ¬(cfg.embed (_create_embedding_text (gem.name.getD "")
      (gem.description.getD "") readme (gem.keywords.getD []))).length = idx.d) :
    add_gem cfg s gem readme now = Except.error "faiss add: dimension mismatch" := by
  unfold add_gem load_embedding_model load_or_create_index FaissIndex.add
    MetadataDB.insertOrReplace
  rw [hdeps]
  cases hm : s.modelLoaded with
  | false => simp [hidx, hndim, hm, exceptOkBind, exceptErrorBind]
  | true => simp [hidx, hndim, hm, exceptOkBind, exceptErrorBind]

open GemVectorStore in
theorem add_gem_ok_dest {cfg : Config} {s : State} {gem : GemData}
    {readme now : String} {s' : State} {id : Int} {idx : FaissIndex}
    (hdeps : cfg.hasDeps = true) (hidx : s.index = some idx)
    (h : add_gem cfg s gem readme now = Except.ok (s', id)) :
    s'.index = some ⟨idx.d, idx.vecs ++
      [cfg.embed (_create_embedding_text (gem.name.getD "")
        (gem.description.getD "") readme (gem.keywords.getD []))]⟩ ∧
    s'.db.rows = s.db.rows.filter (fun r => r.name ≠ gem.name.getD "") ++
      [{ id := s.db.nextId,
         name := gem.name.getD "",
         description := gem.description.getD "",
         readme_content := readme,
         keywords := storedKeywords (gem.keywords.getD []),
         version := gem.version.getD "",
         homepage := gem.homepage.getD "",
         source_code_uri := gem.source_code_uri.getD "",
         download_count := gem.download_count.getD 0,
         stars := gem.stars.getD 0,
         last_updated := gem.last_updated.getD now,
         created_at := now,
         embedding_vector_id := (idx.vecs.length : Int) }] ∧
    s'.db.nextId = s.db.nextId + 1 ∧
    id = (s.db.nextId : Int) := by
  by_cases hdim : (cfg.embed (_create_embedding_text (gem.name.getD "")
      (gem.description.getD "") readme (gem.keywords.getD []))).length = idx.d
  · rw [add_gem_eq_of_dim hdeps hidx hdim] at h
    simp only [Except.ok.injEq, Prod.mk.injEq] at h
    obtain ⟨h1, h2⟩ := h
    subst h1
    subst h2
    exact ⟨rfl, rfl, rfl, rfl⟩
  · rw [add_gem_eq_of_not_dim hdeps hidx hdim] at h
    cases h

theorem readKeywords_storedKeywords (K : List String) :
    readKeywords (storedKeywords K) = K := by
  cases K with
  | nil => decide
  | cons a as =>
    have h1 : storedKeywords (a :: as) = jsonDumps (a :: as) := rfl
    have h2 : ¬(jsonDumps (a :: as)).isEmpty = true := by
      rw [String.isEmpty_iff]
      intro hh
      have hd : ('[' :: (commaJoin ((a :: as).map jsonEncodeString) ++ [']'])) =
          ([] : List Char) := congrArg String.data hh
      cases hd
    unfold readKeywords
    rw [h1, if_neg h2, jsonLoads_jsonDumps]
    rfl

theorem insertHit_perm (x : ℤ × Int) (l : List (ℤ × Int)) :
    (insertHit x l).Perm (x :: l) := by
  induction l with
  | nil => exact List.Perm.refl _
  | cons y ys ih =>
    unfold insertHit
    split
    · exact List.Perm.refl _
    · exact (List.Perm.cons y ih).trans (List.Perm.swap x y ys)

theorem sortHits_perm (l : List (ℤ × Int)) : (sortHits l).Perm l := by
  induction l with
  | nil => exact List.Perm.refl _
  | cons x xs ih => exact (insertHit_perm x (sortHits xs)).trans (List.Perm.cons x ih)

theorem get_by_position_pos {db : MetadataDB} {pos : Int} {r : GemRow}
    (h : db.get_by_position pos = some r) : r.embedding_vector_id = pos := by
  unfold MetadataDB.get_by_position at h
  simpa using List.find?_some h

theorem get_by_position_mem {db : MetadataDB} {pos : Int} {r : GemRow}
    (h : db.get_by_position pos = some r) : r ∈ db.rows :=
  List.mem_of_find?_eq_some h

theorem foundRows_nil (db : MetadataDB) : foundRows db [] = [] := rfl

theorem foundRows_cons_sentinel (db : MetadataDB) {h : ℤ × Int}
    (hp : (h.2 == -1) = true) (t : List (ℤ × Int)) :
    foundRows db (h :: t) = foundRows db t := by
  have hp2 : h.2 = -1 := by simpa using hp
  simp [foundRows, hp2]

theorem foundRows_cons_none (db : MetadataDB) {h : ℤ × Int}
    (hp : ¬(h.2 == -1) = true) (hg : db.get_by_position h.2 = none)
    (t : List (ℤ × Int)) :
    foundRows db (h :: t) = foundRows db t := by
  have hp2 : ¬h.2 = -1 := by simpa using hp
  simp [foundRows, hp2, hg]

theorem foundRows_cons_some (db : MetadataDB) {h : ℤ × Int} {r : GemRow}
    (hp : ¬(h.2 == -1) = true) (hg : db.get_by_position h.2 = some r)
    (t : List (ℤ × Int)) :
    foundRows db (h :: t) = r :: foundRows db t := by
  have hp2 : ¬h.2 = -1 := by simpa using hp
  simp [foundRows, hp2, hg]

theorem foundRows_mem {db : MetadataDB} {hits : List (ℤ × Int)} {r : GemRow}
    (h : r ∈ foundRows db hits) :
    r ∈ db.rows ∧ r.embedding_vector_id ∈ hits.map Prod.snd := by
  unfold foundRows at h
  rw [List.mem_filterMap] at h
  obtain ⟨a, ha, hfa⟩ := h
  by_cases hp : (a.2 == -1) = true
  · simp [hp] at hfa
  · simp only [hp, if_false, Bool.false_eq_true, ite_false] at hfa
    refine ⟨get_by_position_mem hfa, ?_⟩
    rw [get_by_position_pos hfa]
    exact List.mem_map_of_mem Prod.snd ha

theorem foundRows_nodup (db : MetadataDB) {hits : List (ℤ × Int)}
    (hn : (hits.map Prod.snd).Nodup) : (foundRows db hits).Nodup := by
  induction hits with
  | nil => simp [foundRows]
  | cons a t ih =>
    rw [List.map_cons] at hn
    obtain ⟨ha2, hnt⟩ := List.nodup_cons.mp hn
    by_cases hp : (a.2 == -1) = true
    · rw [foundRows_cons_sentinel db hp]
      exact ih hnt
    · cases hg : db.get_by_position a.2 with
      | none =>
        rw [foundRows_cons_none db hp hg]
        exact ih hnt
      | some r =>
        rw [foundRows_cons_some db hp hg]
        refine List.nodup_cons.mpr ⟨?_, ih hnt⟩
        intro hmem
        have h2 := (foundRows_mem hmem).2
        rw [get_by_position_pos hg] at h2
        exact ha2 h2

theorem foundRows_length_le_rows (db : MetadataDB) {hits : List (ℤ × Int)}
    (hn : (hits.map Prod.snd).Nodup) :
    (foundRows db hits).length ≤ db.rows.length :=
  (List.subperm_of_subset (foundRows_nodup db hn)
    (fun _ hr => (foundRows_mem hr).1)).length_le

theorem foundRows_append (db : MetadataDB) (l1 l2 : List (ℤ × Int)) :
    foundRows db (l1 ++ l2) = foundRows db l1 ++ foundRows db l2 := by
  simp [foundRows, List.filterMap_append]

theorem foundRows_replicate_sentinel (db : MetadataDB) (m : Nat) :
    foundRows db (List.replicate m ((0 : ℤ), (-1 : Int))) = [] := by
  induction m with
  | zero => rfl
  | succ m ih =>
    rw [List.replicate_succ, foundRows_cons_sentinel db (by decide)]
    exact ih

theorem assembleResults_length (db : MetadataDB) (hits : List (ℤ × Int)) (i : Nat) :
    (GemVectorStore.assembleResults db hits i).length = (foundRows db hits).length := by
  induction hits generalizing i with
  | nil => rfl
  | cons a t ih =>
    obtain ⟨score, pos⟩ := a
    by_cases hp : (pos == -1) = true
    · rw [foundRows_cons_sentinel db hp]
      have he : GemVectorStore.assembleResults db ((score, pos) :: t) i =
          GemVectorStore.assembleResults db t (i + 1) := by
        simp [GemVectorStore.assembleResults, hp]
      rw [he]
      exact ih (i + 1)
    · cases hg : db.get_by_position pos with
      | none =>
        rw [foundRows_cons_none db hp hg]
        have he : GemVectorStore.assembleResults db ((score, pos) :: t) i =
            GemVectorStore.assembleResults db t (i + 1) := by
          simp [GemVectorStore.assembleResults, hp, hg]
        rw [he]
        exact ih (i + 1)
      | some r =>
        rw [foundRows_cons_some db hp hg]
        have he : GemVectorStore.assembleResults db ((score, pos) :: t) i =
            { name := r.name,
              description := r.description,
              keywords := readKeywords r.keywords,
              version := r.version,
              homepage := r.homepage,
              source_code_uri := r.source_code_uri,
              download_count := r.download_count,
              stars := r.stars,
              last_updated := r.last_updated,
              similarity_score := score,
              rank := i + 1 } :: GemVectorStore.assembleResults db t (i + 1) := by
          simp [GemVectorStore.assembleResults, hp, hg]
        rw [he]
        simp only [List.length_cons]
        rw [ih (i + 1)]

theorem search_top_map_snd_nodup (idx : FaissIndex) (q : List ℤ) (k : Nat) :
    (((sortHits (idx.vecs.enum.map
        (fun p => (innerProduct q p.2, (p.1 : Int))))).take k).map Prod.snd).Nodup := by
  rw [List.map_take]
  refine List.Sublist.nodup (List.take_sublist _ _) ?_
  have hperm := List.Perm.map Prod.snd
    (sortHits_perm (idx.vecs.enum.map (fun p => (innerProduct q p.2, (p.1 : Int)))))
  refine hperm.symm.nodup ?_
  rw [List.map_map]
  have he : (Prod.snd ∘ fun p : Nat × List ℤ => (innerProduct q p.2, (p.1 : Int))) =
      (fun n : Nat => (n : Int)) ∘ Prod.fst := rfl
  rw [he, ← List.map_map, List.enum_map_fst]
  exact List.Nodup.map Nat.cast_injective (List.nodup_range _)

theorem assembleResults_cons_sentinel (db : MetadataDB) {a : ℤ × Int}
    (hp : (a.2 == -1) = true) (t : List (ℤ × Int)) (i : Nat) :
    GemVectorStore.assembleResults db (a :: t) i =
      GemVectorStore.assembleResults db t (i + 1) := by
  obtain ⟨score, pos⟩ := a
  simp [GemVectorStore.assembleResults, hp]

theorem assembleResults_cons_none (db : MetadataDB) {a : ℤ × Int}
    (hp : ¬(a.2 == -1) = true) (hg : db.get_by_position a.2 = none)
    (t : List (ℤ × Int)) (i : Nat) :
    GemVectorStore.assembleResults db (a :: t) i =
      GemVectorStore.assembleResults db t (i + 1) := by
  obtain ⟨score, pos⟩ := a
  simp only at hp hg
  simp [GemVectorStore.assembleResults, hp, hg]

theorem assembleResults_cons_some (db : MetadataDB) {a : ℤ × Int} {r : GemRow}
    (hp : ¬(a.2 == -1) = true) (hg : db.get_by_position a.2 = some r)
    (t : List (ℤ × Int)) (i : Nat) :
    GemVectorStore.assembleResults db (a :: t) i =
      { name := r.name,
        description := r.description,
        keywords := readKeywords r.keywords,
        version := r.version,
        homepage := r.homepage,
        source_code_uri := r.source_code_uri,
        download_count := r.download_count,
        stars := r.stars,
        last_updated := r.last_updated,
        similarity_score := a.1,
        rank := i + 1 } :: GemVectorStore.assembleResults db t (i + 1) := by
  obtain ⟨score, pos⟩ := a
  simp only at hp hg
  simp [GemVectorStore.assembleResults, hp, hg]

theorem assembleResults_rank_facts (db : MetadataDB) (hits : List (ℤ × Int)) :
    ∀ i : Nat,
      (∀ r ∈ GemVectorStore.assembleResults db hits i, i < r.rank) ∧
      List.Pairwise (fun a b : SearchResult => a.rank < b.rank)
        (GemVectorStore.assembleResults db hits i) := by
  induction hits with
  | nil =>
    intro i
    constructor
    · intro r hr
      simp [GemVectorStore.assembleResults] at hr
    · simp [GemVectorStore.assembleResults]
  | cons a t ih =>
    intro i
    by_cases hp : (a.2 == -1) = true
    · rw [assembleResults_cons_sentinel db hp]
      refine ⟨fun r hr => ?_, (ih (i + 1)).2⟩
      exact Nat.lt_trans (Nat.lt_succ_self i) ((ih (i + 1)).1 r hr)
    · cases hg : db.get_by_position a.2 with
      | none =>
        rw [assembleResults_cons_none db hp hg]
        refine ⟨fun r hr => ?_, (ih (i + 1)).2⟩
        exact Nat.lt_trans (Nat.lt_succ_self i) ((ih (i + 1)).1 r hr)
      | some row =>
        rw [assembleResults_cons_some db hp hg]
        constructor
        · intro r hr
          rcases List.mem_cons.mp hr with hr | hr
          · rw [hr]
            exact Nat.lt_succ_self i
          · exact Nat.lt_trans (Nat.lt_succ_self i) ((ih (i + 1)).1 r hr)
        · refine List.pairwise_cons.mpr ⟨fun b hb => ?_, (ih (i + 1)).2⟩
          exact (ih (i + 1)).1 b hb

/-! ## The claims -/

/-- C1: with the embedding capability available, every successful `add_gem`
assigns the record the vector position equal to the index's vector count
immediately before the insertion (0-based), the index grows by exactly one
vector per add, and across successive adds the assigned positions are
strictly increasing — a position, once assigned, is never assigned again. -/
theorem add_gem_positions_append_only {cfg : Config} {s s1 s2 : State}
    {idx : FaissIndex} {g1 g2 : GemData} {r1 r2 n1 n2 : String} {id1 id2 : Int}
    (hdeps : cfg.hasDeps = true) (hidx : s.index = some idx)
    (h1 : GemVectorStore.add_gem cfg s g1 r1 n1 = Except.ok (s1, id1))
    (h2 : GemVectorStore.add_gem cfg s1 g2 r2 n2 = Except.ok (s2, id2)) :
    ∃ v1 v2 row1 row2,
      s1.index = some ⟨idx.d, idx.vecs ++ [v1]⟩ ∧
      s2.index = some ⟨idx.d, (idx.vecs ++ [v1]) ++ [v2]⟩ ∧
      s1.db.rows.getLast? = some row1 ∧
      s2.db.rows.getLast? = some row2 ∧
      row1.embedding_vector_id = (idx.vecs.length : Int) ∧
      row2.embedding_vector_id = (idx.vecs.length : Int) + 1 ∧
      row1.embedding_vector_id < row2.embedding_vector_id := by
  obtain ⟨hi1, hr1, hn1, hid1⟩ := add_gem_ok_dest hdeps hidx h1
  obtain ⟨hi2, hr2, hn2, hid2⟩ := add_gem_ok_dest hdeps hi1 h2
  rw [hr1, hr2]
  refine ⟨_, _, _, _, hi1, hi2, List.getLast?_concat _, List.getLast?_concat _,
    rfl, ?_, ?_⟩
  · show ((idx.vecs ++ [_]).length : Int) = (idx.vecs.length : Int) + 1
    simp [List.length_append]
  · show (idx.vecs.length : Int) < ((idx.vecs ++ [_]).length : Int)
    simp [List.length_append]

/-- C1 witness: two concrete adds on a store with an empty loaded index give
positions 0 and 1. -/
theorem add_gem_positions_append_only_witness :
    ∃ v1 v2 row1 row2,
      c1S1.index = some ⟨2, [v1]⟩ ∧
      c1S2.index = some ⟨2, [v1] ++ [v2]⟩ ∧
      c1S1.db.rows.getLast? = some row1 ∧
      c1S2.db.rows.getLast? = some row2 ∧
      row1.embedding_vector_id = (0 : Int) ∧
      row2.embedding_vector_id = (0 : Int) + 1 ∧
      row1.embedding_vector_id < row2.embedding_vector_id :=
  @add_gem_positions_append_only c1Cfg c1S0 c1S1 c1S2 ⟨2, []⟩
    { name := some "a" } { name := some "b" } "" "" "t1" "t2" 1 2
    rfl rfl rfl rfl

/-- C2: with the embedding capability unavailable, `add_gem` returns the
sentinel `-1` with the state unchanged (so `stats` is unchanged), and
`search` returns the empty list. -/
theorem add_gem_search_degrade (cfg : Config) (s : State) (gem : GemData)
    (readme now query : String) (k : Nat) (hdeps : cfg.hasDeps = false) :
    GemVectorStore.add_gem cfg s gem readme now = Except.ok (s, -1) ∧
    GemVectorStore.search cfg s query k = [] := by
  constructor
  · unfold GemVectorStore.add_gem
    rw [hdeps]
    rfl
  · unfold GemVectorStore.search
    rw [hdeps]
    rfl

/-- C2 witness: the degrade behavior at a concrete dependency-less store. -/
theorem add_gem_search_degrade_witness :
    GemVectorStore.add_gem c2Cfg GemVectorStore.initState {} "" "" =
      Except.ok (GemVectorStore.initState, -1) ∧
    GemVectorStore.search c2Cfg GemVectorStore.initState "q" 5 = [] :=
  add_gem_search_degrade c2Cfg GemVectorStore.initState {} "" "" "q" 5 rfl

/-- C3: evaluating `add_gem` at the failing input `{}` (a record with no
`name` key): the call is NOT rejected — it succeeds with rowid 1, the
metadata store gains a row whose name is the empty string, and the vector
index gains a vector.  The repository's own test
(`test_error_handling` in `tests/test_ingest.py`) expects this call to
raise. -/
theorem add_gem_missing_name_not_rejected :
    (GemVectorStore.add_gem c3Cfg GemVectorStore.initState {} "" "t").toOption.map
        (fun p => (p.1.db.rows.map GemRow.name,
                   (GemVectorStore.get_stats c3Cfg p.1).total_gems,
                   (GemVectorStore.get_stats c3Cfg p.1).index_size,
                   p.2)) =
      some ([""], 1, 1, 1) := by
  decide

/-- C5 (amended): loading when the persisted index file is unreadable
surfaces the read failure to the caller instead of silently recreating an
empty index. -/
theorem load_or_create_index_corrupt_error (s : State)
    (h1 : s.index = none) (h2 : s.diskIndex = some IndexFile.corrupt) :
    GemVectorStore.load_or_create_index s =
      Except.error "faiss read_index failed" := by
  unfold GemVectorStore.load_or_create_index
  rw [h1, h2]

/-- C5 witness: the unreadable-file failure at a concrete store. -/
theorem load_or_create_index_corrupt_error_witness :
    GemVectorStore.load_or_create_index c5CorruptState =
      Except.error "faiss read_index failed" :=
  load_or_create_index_corrupt_error c5CorruptState rfl rfl

/-- C5 counterexample: a persisted index of dimension 5 loads successfully
into a store whose configured dimension is 384 — the dimension mismatch is
not detected at load time, contradicting the claim that loading fails
whenever the dimension mismatches. -/
theorem load_or_create_index_dimension_mismatch_not_detected :
    (GemVectorStore.load_or_create_index c5MismatchState).toOption.map
        (fun s => (s.index, s.dimension)) = some (some ⟨5, []⟩, 384) ∧
    (5 : Nat) ≠ 384 := by
  decide

/-- C9: searching a freshly created, never-populated store returns the empty
list for every query and every k — both before any index is loaded and
after `load_or_create_index` creates the empty index. -/
theorem search_fresh_store_empty (cfg : Config) (query : String) (k : Nat) :
    GemVectorStore.search cfg GemVectorStore.initState query k = [] ∧
    GemVectorStore.load_or_create_index GemVectorStore.initState =
      Except.ok { GemVectorStore.initState with index := some ⟨384, []⟩ } ∧
    GemVectorStore.search cfg
      { GemVectorStore.initState with index := some ⟨384, []⟩ } query k = [] := by
  refine ⟨?_, rfl, ?_⟩
  · unfold GemVectorStore.search
    cases hd : cfg.hasDeps <;> simp [hd, GemVectorStore.initState]
  · unfold GemVectorStore.search
    cases hd : cfg.hasDeps <;> simp [hd]

/-- C4 counterexample: add gem `a` twice (a replace, which orphans vector
position 0), then search with k = 2.  The orphaned position scores highest,
resolves to no row and is skipped, and the single returned result carries
rank 2 — the first element of the result list does not have rank 1, so the
ranks are not the consecutive sequence the claim states. -/
theorem search_rank_gap_counterexample :
    GemVectorStore.add_gem c4Cfg GemVectorStore.initState
        { name := some "a", description := some "x" } "" "t1" =
      Except.ok (c4S1, 1) ∧
    GemVectorStore.add_gem c4Cfg c4S1
        { name := some "a", description := some "y" } "" "t2" =
      Except.ok (c4S2, 2) ∧
    (GemVectorStore.search c4Cfg c4S2 "q" 2).map (fun r => r.rank) = [2] ∧
    (GemVectorStore.search c4Cfg c4S2 "q" 2).length = 1 :=
  ⟨rfl, rfl, by decide, by decide⟩

/-- C4 (amended): `search` preserves the Vector-Index hit order and attaches
`rank = i + 1` where `i` is the hit's 0-based index in the raw FAISS hit
list, counting skipped hits as well; the ranks of the returned results are
therefore strictly increasing and at least 1, but not necessarily
consecutive when sentinel hits or hits with no metadata row were skipped. -/
theorem search_ranks_strictly_increasing (cfg : Config) (s : State)
    (query : String) (k : Nat) :
    List.Pairwise (fun a b : SearchResult => a.rank < b.rank)
      (GemVectorStore.search cfg s query k) ∧
    ∀ r ∈ GemVectorStore.search cfg s query k, 1 ≤ r.rank := by
  unfold GemVectorStore.search
  cases hd : cfg.hasDeps
  · simp
  · cases hsi : s.index with
    | none => simp
    | some idx =>
      by_cases h0 : idx.vecs.length = 0
      · simp [h0]
      · simp only [h0, Bool.not_true, reduceIte, if_false, ite_false,
          Bool.false_eq_true]
        exact ⟨(assembleResults_rank_facts _ _ 0).2,
          fun r hr => (assembleResults_rank_facts _ _ 0).1 r hr⟩

/-- C7: the embedding text built by `_create_embedding_text` is exactly the
fixed-order concatenation the spec describes — name, description,
comma-joined keywords, then a prefix of the readme of at most 2000
characters — with every section whose source field is empty omitted. -/
theorem create_embedding_text_spec (name description readme : String)
    (keywords : List String) :
    GemVectorStore._create_embedding_text name description readme keywords =
      specEmbeddingText name description readme keywords ∧
    (String.mk (readme.data.take 2000)).length ≤ 2000 ∧
    readme.data.take 2000 ++ readme.data.drop 2000 = readme.data := by
  refine ⟨?_, ?_, List.take_append_drop 2000 readme.data⟩
  · unfold GemVectorStore._create_embedding_text specEmbeddingText
    have htr : (if readme.length > 2000 then String.mk (readme.data.take 2000)
        else readme) = String.mk (readme.data.take 2000) := by
      by_cases h5 : readme.length > 2000
      · rw [if_pos h5]
      · rw [if_neg h5]
        have hle : readme.data.length ≤ 2000 := by
          have he : readme.length = readme.data.length := rfl
          omega
        rw [List.take_of_length_le hle]
    rw [htr]
    by_cases h1 : name = "" <;> by_cases h2 : description = "" <;>
      by_cases h3 : keywords = [] <;> by_cases h4 : readme = "" <;>
      simp [h1, h2, h3, h4]
  · show (readme.data.take 2000).length ≤ 2000
    rw [List.length_take]
    exact min_le_left _ _

/-- C8: `search` never returns more than `min k total_records` results,
where `total_records` is the number of rows of the metadata store: FAISS
yields at most `min k ntotal` real hits, sentinel hits are filtered out, and
the surviving hits resolve to pairwise distinct metadata rows. -/
theorem search_capacity (cfg : Config) (s : State) (query : String) (k : Nat) :
    (GemVectorStore.search cfg s query k).length ≤ min k s.db.rows.length := by
  unfold GemVectorStore.search
  cases hd : cfg.hasDeps
  · simp
  · cases hsi : s.index with
    | none => simp
    | some idx =>
      by_cases h0 : idx.vecs.length = 0
      · simp [h0]
      · simp only [h0, Bool.not_true, reduceIte, if_false, ite_false,
          Bool.false_eq_true]
        rw [assembleResults_length]
        unfold FaissIndex.search
        rw [foundRows_append, foundRows_replicate_sentinel, List.append_nil]
        refine le_min ?_ ?_
        · exact le_trans (List.length_filterMap_le _ _)
            (le_trans (List.length_take_le _ _) (le_refl _))
        · exact foundRows_length_le_rows _
            (search_top_map_snd_nodup idx (cfg.embed query) k)

theorem find?_evid_append {l : List GemRow} {row : GemRow} {pos : Int}
    (hl : ∀ r ∈ l, r.embedding_vector_id ≠ pos)
    (hrow : row.embedding_vector_id = pos) :
    (l ++ [row]).find? (fun r => r.embedding_vector_id == pos) = some row := by
  induction l with
  | nil => simp [List.find?, hrow]
  | cons a as ih =>
    have hpa : (a.embedding_vector_id == pos) = false := by
      simpa using hl a (List.mem_cons_self a as)
    simp only [List.cons_append, List.find?, hpa]
    exact ih fun r hr => hl r (List.mem_cons_of_mem a hr)

/-- C10: keywords are serialized with `json.dumps` at `add_gem` time (an
absent or empty list stored as the literal text `"[]"`) and parsed back with
`json.loads` at `search` time, and the two compose to the identity: a gem
added with keyword list `K` and then found by `search` comes back with
`keywords = K`. -/
theorem keywords_roundtrip (K : List String) (s' : State) (id : Int)
    (h : GemVectorStore.add_gem c10Cfg c10S0
        { name := some "a", keywords := some K } "" "t1" = Except.ok (s', id)) :
    readKeywords (storedKeywords K) = K ∧
    storedKeywords [] = "[]" ∧
    (GemVectorStore.search c10Cfg s' "q" 1).map (fun r => r.keywords) = [K] := by
  obtain ⟨hi, hr, hn, hid⟩ :=
    @add_gem_ok_dest c10Cfg c10S0 { name := some "a", keywords := some K }
      "" "t1" s' id ⟨2, []⟩ rfl rfl h
  refine ⟨readKeywords_storedKeywords K, rfl, ?_⟩
  have hi2 : s'.index = some ⟨2, [[1, 1]]⟩ := by rw [hi]; rfl
  have hrow : s'.db.get_by_position 0 = some
      { id := 1, name := "a", description := "", readme_content := "",
        keywords := storedKeywords K, version := "", homepage := "",
        source_code_uri := "", download_count := 0, stars := 0,
        last_updated := "t1", created_at := "t1",
        embedding_vector_id := 0 } := by
    unfold MetadataDB.get_by_position
    rw [hr]
    rfl
  have hhits : FaissIndex.search ⟨2, [[1, 1]]⟩ (c10Cfg.embed "q") 1 =
      [(2, 0)] := by decide
  unfold GemVectorStore.search
  rw [hi2]
  show (GemVectorStore.assembleResults s'.db
      (FaissIndex.search ⟨2, [[1, 1]]⟩ (c10Cfg.embed "q") 1) 0).map
      (fun r => r.keywords) = [K]
  rw [hhits, assembleResults_cons_some s'.db (by decide) hrow [] 0]
  simp [GemVectorStore.assembleResults, readKeywords_storedKeywords]

/-- Witness for the keywords round trip at K = ["ruby", "json"]. -/
theorem keywords_roundtrip_witness :
    readKeywords (storedKeywords ["ruby", "json"]) = ["ruby", "json"] ∧
    storedKeywords [] = "[]" ∧
    (GemVectorStore.search c10Cfg c10WS "q" 1).map (fun r => r.keywords) =
      [["ruby", "json"]] :=
  keywords_roundtrip ["ruby", "json"] c10WS 1 rfl

/-- C6: re-adding a gem whose name already exists in the metadata store
replaces it: the new store is the old rows minus every row of that name plus
one fresh row carrying the updated fields (description, keywords, version and
the newly assigned vector position), `get_by_position` at the new position
returns that updated row, and the number of distinct stored names does not
increase. -/
theorem add_gem_replace_semantics (cfg : Config) (s : State) (gem : GemData)
    (readme now : String) (s' : State) (id : Int) (idx : FaissIndex)
    (hdeps : cfg.hasDeps = true) (hidx : s.index = some idx)
    (hname : ∃ r ∈ s.db.rows, r.name = gem.name.getD "")
    (hfresh : ∀ r ∈ s.db.rows, r.embedding_vector_id ≠ (idx.vecs.length : Int))
    (h : GemVectorStore.add_gem cfg s gem readme now = Except.ok (s', id)) :
    ∃ row : GemRow,
      s'.db.rows =
        s.db.rows.filter (fun r => r.name ≠ gem.name.getD "") ++ [row] ∧
      row.name = gem.name.getD "" ∧
      row.description = gem.description.getD "" ∧
      row.keywords = storedKeywords (gem.keywords.getD []) ∧
      row.version = gem.version.getD "" ∧
      row.embedding_vector_id = (idx.vecs.length : Int) ∧
      s'.db.get_by_position (idx.vecs.length : Int) = some row ∧
      (s'.db.rows.map GemRow.name).toFinset.card ≤
        (s.db.rows.map GemRow.name).toFinset.card := by
  obtain ⟨hi, hr, hn, hid⟩ := add_gem_ok_dest hdeps hidx h
  refine ⟨_, hr, rfl, rfl, rfl, rfl, rfl, ?_, ?_⟩
  · unfold MetadataDB.get_by_position
    rw [hr]
    exact find?_evid_append
      (fun r hrm => hfresh r (List.mem_of_mem_filter hrm)) rfl
  · apply le_of_eq
    apply congrArg Finset.card
    rw [hr]
    ext n
    simp only [List.map_append, List.toFinset_append, Finset.mem_union,
      List.mem_toFinset, List.mem_map, List.mem_filter, List.map_cons,
      List.map_nil, List.toFinset_cons, List.toFinset_nil,
      Finset.mem_insert, Finset.not_mem_empty, or_false, decide_eq_true_eq,
      ne_eq]
    constructor
    · rintro (⟨r, ⟨hrm, _⟩, hn2⟩ | hn2)
      · exact ⟨r, hrm, hn2⟩
      · obtain ⟨r, hrm, hrn⟩ := hname
        subst hn2
        exact ⟨r, hrm, hrn⟩
    · rintro ⟨r, hrm, hn2⟩
      by_cases hng : n = gem.name.getD ""
      · exact Or.inr hng
      · exact Or.inl ⟨r, ⟨hrm, fun hc => hng (hn2.symm.trans hc)⟩, hn2⟩

/-- Witness for the replace semantics: re-adding gem `a` to `c6S0`. -/
theorem add_gem_replace_semantics_witness :
    ∃ row : GemRow,
      c6S1.db.rows =
        c6S0.db.rows.filter (fun r => r.name ≠ c6Gem.name.getD "") ++ [row] ∧
      row.name = c6Gem.name.getD "" ∧
      row.description = c6Gem.description.getD "" ∧
      row.keywords = storedKeywords (c6Gem.keywords.getD []) ∧
      row.version = c6Gem.version.getD "" ∧
      row.embedding_vector_id = ((1 : Nat) : Int) ∧
      c6S1.db.get_by_position ((1 : Nat) : Int) = some row ∧
      (c6S1.db.rows.map GemRow.name).toFinset.card ≤
        (c6S0.db.rows.map GemRow.name).toFinset.card :=
  add_gem_replace_semantics c6Cfg c6S0 c6Gem "" "t1" c6S1 2 ⟨2, [[1, 0]]⟩
    rfl rfl ⟨c6Row0, List.mem_singleton_self _, rfl⟩ (by decide) rfl
